import Mathlib

namespace Microcosm

/-- A configuration value: a scalar (integer, string, boolean, null) or a
nested configuration. -/
inductive Val : Type where
  | vInt (n : Int) : Val
  | vStr (s : String) : Val
  | vBool (b : Bool) : Val
  | vNull : Val
  | cfg (entries : List (String × Val)) : Val
deriving Repr

/-- A `Configuration` mapping: an ordered association list of string keys
and values (Python `dict` insertion order). -/
abbrev Config := List (String × Val)

/-- The empty `Configuration` (Python `Configuration()`). -/
def Config.empty : Config := []

/-- Dictionary key lookup: the value at the first occurrence of `k`, if any. -/
def lookup (c : Config) (k : String) : Option Val :=
  match c with
  | [] => none
  | (k', v) :: rest => if k' = k then some v else lookup rest k

/-- Python `dict.__setitem__`: replace the value at an existing key in
place, otherwise append the new binding at the end. -/
def setKey (c : Config) (k : String) (v : Val) : Config :=
  match c with
  | [] => [(k, v)]
  | (k', v') :: rest => if k' = k then (k, v) :: rest else (k', v') :: setKey rest k v

/-- The keys of a configuration, in order. -/
def keys (c : Config) : List String := c.map (·.1)

mutual

/-- How one value of `b` combines with the existing value of `a` at the
same key during a merge: two nested configurations merge recursively,
otherwise the right value wins. -/
def mergeVal : Val → Val → Val
  | Val.cfg na, Val.cfg nb => Val.cfg (merge na nb)
  | _, w => w

/-- Modelled from the spec: `Configuration.merge` lives in
`microcosm/configuration.py`, which is not among the supplied sources;
spec §3/§4.1 define it.  Merging `b` into `a` is a recursive deep merge:
for each key of `b` in order, if `a` lacks the key the binding is added;
if both sides hold a nested `Configuration` there the two are merged
recursively; otherwise `b`'s value overwrites `a`'s. -/
def merge (a : Config) (b : Config) : Config :=
  match b with
  | [] => a
  | (k, v) :: rest =>
      let a' :=
        match lookup a k with
        | some old => setKey a k (mergeVal old v)
        | none => setKey a k v
      merge a' rest

end

/-- ASCII upper-case letter test (the character class `[A-Z]`). -/
def isUpperAZ (c : Char) : Bool := decide (65 ≤ c.toNat ∧ c.toNat ≤ 90)

/-- ASCII lower-case letter test (the character class `[a-z]`). -/
def isLowerAZ (c : Char) : Bool := decide (97 ≤ c.toNat ∧ c.toNat ≤ 122)

/-- Python `str.upper()` on ASCII text, character by character. -/
def upperChars (l : List Char) : List Char := l.map Char.toUpper

/-- Python `str.lower()` on ASCII text, character by character. -/
def lowerChars (l : List Char) : List Char := l.map Char.toLower

/-- Python `str.replace("-", "_")`, character by character. -/
def replaceDash (l : List Char) : List Char :=
  l.map (fun c => if c = '-' then '_' else c)

/-- Python `str.split(sep)` for a single-character separator: split on
every occurrence, keeping empty pieces (`"".split("_") == [""]`). -/
def splitChar (sep : Char) (l : List Char) : List (List Char) :=
  match l with
  | [] => [[]]
  | c :: rest =>
      match splitChar sep rest with
      | [] => [[]]
      | g :: gs => if c = sep then [] :: g :: gs else (c :: g) :: gs

/-- `metadata.name.upper().replace("-", "_").split("_")` from
`load_from_environ`: the prefix parts an environment variable name must
extend. -/
def nameParts (name : String) : List String :=
  (splitChar '_' (replaceDash (upperChars name.toList))).map (fun p => String.mk p)

/-- `key.split("_")` for an environment variable name. -/
def keyParts (key : String) : List String :=
  (splitChar '_' key.toList).map (fun p => String.mk p)

/-- `matches_key` from `load_from_environ`: the split variable name is
strictly longer than the prefix and starts with it element-wise. -/
def matches_key (pre : List String) (key_parts : List String) : Bool :=
  decide (key_parts.length > pre.length) &&
    decide (key_parts.take pre.length = pre)

/-- Whether the environment variable named `key` matches metadata name
`name` in `load_from_environ`. -/
def matchesVar (name : String) (key : String) : Bool :=
  matches_key (nameParts name) (keyParts key)

/-- Python `str.lower()` at the `String` level. -/
def strLower (s : String) : String := String.mk (lowerChars s.toList)

/-- A JSON natural-number literal: `0`, or a nonzero digit followed by
digits (JSON forbids leading zeros). -/
def isNatLit : List Char → Bool
  | [] => false
  | ['0'] => true
  | c :: rest => '1' ≤ c && c ≤ '9' && rest.all Char.isDigit

/-- A JSON integer literal: an optional minus sign then a natural literal. -/
def isIntLit (l : List Char) : Bool :=
  match l with
  | '-' :: rest => isNatLit rest
  | _ => isNatLit l

/-- Digits to a natural number, most significant first. -/
def digitsToNat (l : List Char) : Nat :=
  l.foldl (fun acc c => acc * 10 + (c.toNat - '0'.toNat)) 0

/-- An integer literal's value. -/
def intLitValue (l : List Char) : Int :=
  match l with
  | '-' :: rest => -(digitsToNat rest : Int)
  | _ => (digitsToNat l : Int)

/-- A simple JSON string literal: quotes around characters that need no
escaping. -/
def isSimpleStrLit (l : List Char) : Bool :=
  match l with
  | '"' :: rest =>
      match rest.reverse with
      | '"' :: mid => mid.all (fun c => c ≠ '"' && c ≠ '\\')
      | _ => false
  | _ => false

/-- Modelled from the spec: the environment decoder's value decoding is
Python's `json.loads`, a standard-library collaborator outside the
supplied sources; spec §4.2 calls it "opportunistically decoded as a
JSON-style literal (numbers, booleans, null, quoted strings, or embedded
JSON structures) when syntactically valid".  This model covers the
scalar literals — integers, booleans, null and escape-free quoted
strings; floating-point numbers and embedded structures are outside the
model and decode to `none` here. -/
def jsonDecode (s : String) : Option Val :=
  let l := s.toList
  if s = "true" then some (Val.vBool true)
  else if s = "false" then some (Val.vBool false)
  else if s = "null" then some Val.vNull
  else if isIntLit l then some (Val.vInt (intLitValue l))
  else if isSimpleStrLit l then some (Val.vStr (String.mk (l.drop 1).dropLast))
  else none

/-- The `try: loads(value) / except ValueError: value` step of
`load_from_environ`: a value that fails literal decoding is kept as the
raw string. -/
def decodeValue (s : String) : Val :=
  match jsonDecode s with
  | some v => v
  | none => Val.vStr s

/-- The nested-insertion loop of `load_from_environ`: each part before
the last assigns a brand-new empty dict at its (lower-cased) key and
descends into it; the last key receives the value. -/
def setPath (c : Config) (mid : List String) (last : String) (v : Val) : Config :=
  match mid with
  | [] => setKey c last v
  | p :: rest => setKey c p (Val.cfg (setPath [] rest last v))

/-- Lookup along a path of nested keys. -/
def lookupPath (c : Config) (path : List String) : Option Val :=
  match path with
  | [] => none
  | [k] => lookup c k
  | k :: rest =>
      match lookup c k with
      | some (Val.cfg nested) => lookupPath nested rest
      | _ => none

/-- Processing of one environment entry by `load_from_environ`'s loop
body: skip a non-matching variable; for a matching one drop the prefix,
build the nested path from all parts but the last (lower-cased) and set
the decoded value at the last part (lower-cased). -/
def environStep (pre : List String) (config : Config) (kv : String × String) : Config :=
  let key_parts := keyParts kv.1
  if matches_key pre key_parts then
    let rest := key_parts.drop pre.length
    setPath config (rest.dropLast.map strLower) (strLower (rest.getLastD "")) (decodeValue kv.2)
  else config

/-- `load_from_environ`: decode a snapshot of environment variables
(an ordered list of name/value pairs) against the metadata name. -/
def load_from_environ (name : String) (env : List (String × String)) : Config :=
  env.foldl (environStep (nameParts name)) Config.empty

/-- The metadata object: the only field the loaders consult is `name`. -/
structure Metadata where
  name : String

/-- First pass of `inflection.underscore`: the substitution
`re.sub(r"([A-Z]+)([A-Z][a-z])", r"\1_\2", word)`, which inserts an
underscore between two upper-case letters followed by a lower-case one. -/
def camelPass1 : List Char → List Char
  | a :: b :: c :: rest =>
      if isUpperAZ a && isUpperAZ b && isLowerAZ c then
        a :: '_' :: camelPass1 (b :: c :: rest)
      else
        a :: camelPass1 (b :: c :: rest)
  | l => l

/-- Second pass of `inflection.underscore`: the substitution
`re.sub(r"([a-z\d])([A-Z])", r"\1_\2", word)`, which inserts an
underscore between a lower-case letter or digit and an upper-case
letter. -/
def camelPass2 : List Char → List Char
  | a :: b :: rest =>
      if (isLowerAZ a || a.isDigit) && isUpperAZ b then
        a :: '_' :: camelPass2 (b :: rest)
      else
        a :: camelPass2 (b :: rest)
  | l => l

/-- `inflection.underscore` (the external `inflection` dependency named
in `setup.py`): insert underscores at camel-case boundaries, replace `-`
with `_`, and lower-case the result. -/
def underscore (w : List Char) : List Char :=
  lowerChars (replaceDash (camelPass2 (camelPass1 w)))

/-- The settings environment variable name consulted by
`get_config_filename`: `"{}_SETTINGS".format(underscore(metadata.name).upper())`. -/
def settingsEnvVar (name : String) : String :=
  String.mk (upperChars (underscore name.toList)) ++ "_SETTINGS"

/-- `environ[envvar]` with `KeyError` mapped to `None`: the first binding
of the variable in the environment snapshot, if any. -/
def envGet (env : List (String × String)) (k : String) : Option String :=
  (env.find? (fun kv => kv.1 = k)).map (·.2)

/-- `get_config_filename`: the value of the derived `FOO_SETTINGS`
environment variable, or `None` when it is unset. -/
def get_config_filename (metadata : Metadata) (env : List (String × String)) : Option String :=
  envGet env (settingsEnvVar metadata.name)

/-- A snapshot of the readable file system: the contents at a path, or
`none` when the path does not exist or cannot be read. -/
def FileSystem := String → Option String

/-- Errors a loader can raise. -/
inductive LoadError : Type where
  | fileAccessError (path : String) : LoadError
  | parseError (msg : String) : LoadError
  | indexError : LoadError
deriving DecidableEq, Repr

/-- A parse function handed to `_load_from_file`: text to a nested
mapping, or a propagated parse error. -/
def ParseFunc := String → Except String Config

/-- `_load_from_file`: when the settings variable is unset return an
empty `Configuration`; otherwise open and read the file (failing with a
file-access error when it cannot be read) and parse its text, letting
parse errors propagate. -/
def load_from_file (fs : FileSystem) (metadata : Metadata)
    (env : List (String × String)) (load_func : ParseFunc) : Except LoadError Config :=
  match get_config_filename metadata env with
  | none => Except.ok Config.empty
  | some config_filename =>
      match fs config_filename with
      | none => Except.error (LoadError.fileAccessError config_filename)
      | some text =>
          match load_func text with
          | Except.error e => Except.error (LoadError.parseError e)
          | Except.ok data => Except.ok data

/-- A pure loader: metadata to `Configuration` (the loaders `load_each`
combines). -/
def Loader := Metadata → Config

/-- `load_each`: the combined loader starts from the first loader's
output (`loaders[0](metadata)` — an index error on an empty sequence)
and merges each remaining loader's output into it in order. -/
def load_each (loaders : List Loader) (metadata : Metadata) : Except LoadError Config :=
  match loaders with
  | [] => Except.error LoadError.indexError
  | l0 :: rest => Except.ok (rest.foldl (fun config l => merge config (l metadata)) (l0 metadata))

/-- Modelled from the spec: spec §8 states that the combined loader
equals "iteratively merging each loader's individual output in order,
starting from an empty Configuration merged with the first output". -/
def load_each_spec (loaders : List Loader) (metadata : Metadata) : Config :=
  (loaders.map (fun l => l metadata)).foldl merge Config.empty

end Microcosm

namespace Microcosm

/-! ## Lemmas about the configuration container -/

theorem keys_cons (k : String) (v : Val) (tl : Config) :
    keys ((k, v) :: tl) = k :: keys tl := rfl

theorem lookup_setKey_self (c : Config) (k : String) (v : Val) :
    lookup (setKey c k v) k = some v := by
  induction c with
  | nil => simp [setKey, lookup]
  | cons hd tl ih =>
      obtain ⟨k', v'⟩ := hd
      by_cases h : k' = k
      · subst h
        simp [setKey, lookup]
      · simp [setKey, lookup, h, ih]

theorem lookup_setKey_ne (c : Config) (k : String) (v : Val) (k2 : String)
    (h : k2 ≠ k) : lookup (setKey c k v) k2 = lookup c k2 := by
  have h' : ¬ k = k2 := fun he => h he.symm
  induction c with
  | nil => simp [setKey, lookup, h']
  | cons hd tl ih =>
      obtain ⟨k', v'⟩ := hd
      by_cases hk : k' = k
      · subst hk
        simp [setKey, lookup, h']
      · by_cases hk2 : k' = k2
        · subst hk2
          simp [setKey, lookup, hk]
        · simp [setKey, lookup, hk, hk2, ih]

theorem lookup_eq_none_of_not_mem (c : Config) (k : String) (h : k ∉ keys c) :
    lookup c k = none := by
  induction c with
  | nil => rfl
  | cons hd tl ih =>
      obtain ⟨k', v'⟩ := hd
      rw [keys_cons] at h
      have h1 : ¬ k' = k := fun he => h (by rw [← he]; exact List.mem_cons_self _ _)
      have h2 : k ∉ keys tl := fun hm => h (List.mem_cons_of_mem _ hm)
      simp only [lookup, if_neg h1]
      exact ih h2

theorem setKey_of_lookup_none (c : Config) (k : String) (v : Val)
    (h : lookup c k = none) : setKey c k v = c ++ [(k, v)] := by
  induction c with
  | nil => rfl
  | cons hd tl ih =>
      obtain ⟨k', v'⟩ := hd
      simp only [lookup] at h
      by_cases hk : k' = k
      · simp [hk] at h
      · simp only [setKey, if_neg hk, List.cons_append, List.cons.injEq, true_and]
        exact ih (by simpa [hk] using h)

theorem lookup_append_left_none (a b : Config) (k : String)
    (h : lookup a k = none) : lookup (a ++ b) k = lookup b k := by
  induction a with
  | nil => rfl
  | cons hd tl ih =>
      obtain ⟨k', v'⟩ := hd
      simp only [lookup] at h
      by_cases hk : k' = k
      · simp [hk] at h
      · simp only [List.cons_append, lookup, if_neg hk]
        exact ih (by simpa [hk] using h)

/-! ## Lemmas about merge -/

theorem merge_nil (a : Config) : merge a [] = a := rfl

theorem merge_cons (a : Config) (k : String) (v : Val) (rest : Config) :
    merge a ((k, v) :: rest) =
      merge
        (match lookup a k with
          | some old => setKey a k (mergeVal old v)
          | none => setKey a k v)
        rest := rfl

theorem merge_append_disjoint (b : Config) :
    ∀ a : Config, (∀ k ∈ keys b, lookup a k = none) → (keys b).Nodup →
      merge a b = a ++ b := by
  induction b with
  | nil => intro a _ _; simp [merge_nil]
  | cons hd tl ih =>
      obtain ⟨k, v⟩ := hd
      intro a hdisj hnd
      have hk : lookup a k = none := hdisj k (by simp [keys])
      have hnd' : (k :: keys tl).Nodup := by simpa [keys] using hnd
      have hknot : k ∉ keys tl := (List.nodup_cons.mp hnd').1
      rw [merge_cons]
      simp only [hk]
      rw [setKey_of_lookup_none a k v hk]
      rw [ih (a ++ [(k, v)]) ?_ (List.nodup_cons.mp hnd').2]
      · simp
      · intro k2 hk2
        have hne : ¬ k = k2 := fun he => hknot (he ▸ hk2)
        rw [lookup_append_left_none a [(k, v)] k2
          (hdisj k2 (by rw [keys_cons]; exact List.mem_cons_of_mem _ hk2))]
        simp [lookup, hne]

theorem merge_empty_left (b : Config) (h : (keys b).Nodup) :
    merge Config.empty b = b := by
  have := merge_append_disjoint b Config.empty (fun k _ => rfl) h
  simpa [Config.empty] using this

theorem lookup_merge (b : Config) :
    ∀ a : Config, (keys b).Nodup → ∀ k : String,
      lookup (merge a b) k =
        match lookup b k with
        | none => lookup a k
        | some v =>
            match lookup a k, v with
            | some (Val.cfg na), Val.cfg nb => some (Val.cfg (merge na nb))
            | _, _ => some v := by
  induction b with
  | nil => intro a _ k; rfl
  | cons hd tl ih =>
      obtain ⟨k', v'⟩ := hd
      intro a hnd k
      have hnd' : (k' :: keys tl).Nodup := by simpa [keys] using hnd
      have hk'not : k' ∉ keys tl := (List.nodup_cons.mp hnd').1
      have hndtl : (keys tl).Nodup := (List.nodup_cons.mp hnd').2
      rw [merge_cons]
      rcases hla : lookup a k' with _ | old
      all_goals simp only [hla]
      · -- a has no binding at k'
        rw [ih (setKey a k' v') hndtl k]
        by_cases hkk : k = k'
        · subst hkk
          rw [lookup_eq_none_of_not_mem tl k hk'not]
          simp [lookup, lookup_setKey_self, hla]
        · have h' : ¬ k' = k := fun he => hkk he.symm
          rw [lookup_setKey_ne a k' v' k hkk]
          simp only [lookup, if_neg h']
      · -- a already binds k' to old
        rw [ih (setKey a k' (mergeVal old v')) hndtl k]
        by_cases hkk : k = k'
        · subst hkk
          rw [lookup_eq_none_of_not_mem tl k hk'not]
          simp only [lookup, if_pos rfl, lookup_setKey_self, hla]
          cases old <;> cases v' <;> rfl
        · have h' : ¬ k' = k := fun he => hkk he.symm
          rw [lookup_setKey_ne a k' (mergeVal old v') k hkk]
          simp only [lookup, if_neg h']

/-! ## Lemmas about the environment decoder -/

theorem load_from_environ_append (name : String) (env : List (String × String))
    (kv : String × String) :
    load_from_environ name (env ++ [kv]) =
      environStep (nameParts name) (load_from_environ name env) kv := by
  simp [load_from_environ, List.foldl_append]

theorem environStep_matches (pre : List String) (c : Config) (key value : String)
    (h : matches_key pre (keyParts key) = true) :
    environStep pre c (key, value) =
      setPath c (((keyParts key).drop pre.length).dropLast.map strLower)
        (strLower (((keyParts key).drop pre.length).getLastD ""))
        (decodeValue value) := by
  simp only [environStep]
  rw [if_pos h]

theorem environStep_not_matches (pre : List String) (c : Config) (key value : String)
    (h : matches_key pre (keyParts key) = false) :
    environStep pre c (key, value) = c := by
  simp only [environStep]
  rw [if_neg (by simp [h])]

theorem lookupPath_cons_of_ne_nil (c : Config) (k : String) (t : List String)
    (h : t ≠ []) :
    lookupPath c (k :: t) =
      match lookup c k with
      | some (Val.cfg nested) => lookupPath nested t
      | _ => none := by
  cases t with
  | nil => exact absurd rfl h
  | cons x xs => rfl

theorem lookupPath_setPath (mid : List String) :
    ∀ (c : Config) (last : String) (v : Val),
      lookupPath (setPath c mid last v) (mid ++ [last]) = some v := by
  induction mid with
  | nil =>
      intro c last v
      simp [setPath, lookupPath, lookup_setKey_self]
  | cons p ps ih =>
      intro c last v
      have hne : ps ++ [last] ≠ [] := by simp
      simp only [setPath, List.cons_append]
      rw [lookupPath_cons_of_ne_nil _ _ _ hne, lookup_setKey_self]
      exact ih [] last v

theorem mapLower_decomp (l : List String) :
    ∀ d : String, l ≠ [] →
      l.dropLast.map strLower ++ [strLower (l.getLastD d)] = l.map strLower := by
  induction l with
  | nil => intro d h; exact absurd rfl h
  | cons x t ih =>
      intro d _
      cases t with
      | nil => rfl
      | cons y ts =>
          have h' : y :: ts ≠ [] := by simp
          simp only [List.dropLast_cons₂, List.map_cons, List.cons_append,
            List.getLastD_cons]
          rw [List.cons.injEq]
          refine ⟨rfl, ?_⟩
          have hih := ih x h'
          simp only [List.getLastD_cons, List.map_cons] at hih
          exact hih

theorem rest_ne_nil_of_matches (pre kp : List String)
    (h : matches_key pre kp = true) : kp.drop pre.length ≠ [] := by
  simp only [matches_key, Bool.and_eq_true, decide_eq_true_eq] at h
  intro he
  have hlen := List.drop_eq_nil_iff.mp he
  omega

/-! ## Lemmas about case conversion and `underscore` -/

theorem toLower_eq_self (c : Char) (h : isUpperAZ c = false) : c.toLower = c := by
  simp only [isUpperAZ, decide_eq_false_iff_not, not_and, not_le] at h
  have h' : ¬ (c.toNat ≥ 65 ∧ c.toNat ≤ 90) := by
    intro hc
    exact absurd (h hc.1) (by omega)
  simp [Char.toLower, h']

theorem toUpper_ne_dash (c : Char) (h : ¬ c = '-') : ¬ c.toUpper = '-' := by
  by_cases hl : c.toNat ≥ 97 ∧ c.toNat ≤ 122
  · have hv : (c.toNat - 32).isValidChar := Or.inl (by omega)
    have hgen : ∀ n : Nat, n.isValidChar → (Char.ofNat n).toNat = n := by
      intro n hn
      simp [Char.ofNat, hn, Char.ofNatAux, Char.toNat, UInt32.toNat, BitVec.toNat_ofNatLt]
    simp only [Char.toUpper, if_pos hl]
    intro heq
    have ht : (Char.ofNat (c.toNat - 32)).toNat = c.toNat - 32 := hgen _ hv
    rw [heq] at ht
    have h45 : ('-' : Char).toNat = 45 := by decide
    omega
  · simp only [Char.toUpper, if_neg hl]
    exact h

theorem up_low_dash_comm (c : Char) (h : isUpperAZ c = false) :
    Char.toUpper (Char.toLower (if c = '-' then '_' else c)) =
      (if Char.toUpper c = '-' then '_' else Char.toUpper c) := by
  by_cases hd : c = '-'
  · subst hd
    decide
  · rw [if_neg hd, toLower_eq_self c h, if_neg (toUpper_ne_dash c hd)]

theorem upper_lower_replaceDash (l : List Char) :
    (∀ c ∈ l, isUpperAZ c = false) →
      upperChars (lowerChars (replaceDash l)) = replaceDash (upperChars l) := by
  induction l with
  | nil => intro _; rfl
  | cons c t ih =>
      intro h
      simp only [upperChars, lowerChars, replaceDash, List.map_cons] at *
      rw [List.cons.injEq]
      refine ⟨up_low_dash_comm c (h c (List.mem_cons_self _ _)), ?_⟩
      exact ih (fun x hx => h x (List.mem_cons_of_mem _ hx))

theorem camelPass1_id (l : List Char) :
    (∀ c ∈ l, isUpperAZ c = false) → camelPass1 l = l := by
  induction l with
  | nil => intro _; rfl
  | cons a t ih =>
      intro h
      cases t with
      | nil => rfl
      | cons b t' =>
          cases t' with
          | nil => rfl
          | cons c rest =>
              have ha : isUpperAZ a = false := h a (List.mem_cons_self _ _)
              simp only [camelPass1]
              rw [if_neg (by simp [ha])]
              rw [List.cons.injEq]
              exact ⟨rfl, ih (fun x hx => h x (List.mem_cons_of_mem _ hx))⟩

theorem camelPass2_id (l : List Char) :
    (∀ c ∈ l, isUpperAZ c = false) → camelPass2 l = l := by
  induction l with
  | nil => intro _; rfl
  | cons a t ih =>
      intro h
      cases t with
      | nil => rfl
      | cons b t' =>
          have hb : isUpperAZ b = false :=
            h b (List.mem_cons_of_mem _ (List.mem_cons_self _ _))
          simp only [camelPass2]
          rw [if_neg (by simp [hb])]
          rw [List.cons.injEq]
          exact ⟨rfl, ih (fun x hx => h x (List.mem_cons_of_mem _ hx))⟩

example : matchesVar "foo" "FOO_BAR" = true := by rfl
example : matchesVar "bar" "FOO_BAR" = false := by rfl
example : matchesVar "bar" "foo_bar" = false := by rfl
example : matchesVar "foo_bar" "FOO_BAR_BAZ" = true := by rfl
example : matchesVar "foo-bar" "FOO_BAR_BAZ" = true := by rfl
example : jsonDecode "-42" = some (Val.vInt (-42)) := by rfl
example : jsonDecode "01" = none := by rfl

/-! ## The claims -/

/-- C1: for every non-empty sequence of loaders and every metadata, the
combined loader returned by `load_each` equals iteratively merging each
constituent loader's output in order starting from an empty
`Configuration` merged with the first loader's output; the equality
holds because merging into an empty `Configuration` (whose top-level
keys are unique, per the `Configuration` invariant) yields the merged
value itself. -/
theorem load_each_refines_spec (l0 : Loader) (rest : List Loader) (m : Metadata)
    (h : (keys (l0 m)).Nodup) :
    load_each (l0 :: rest) m = Except.ok (load_each_spec (l0 :: rest) m) := by
  simp only [load_each, load_each_spec, List.map_cons, List.foldl_cons]
  rw [merge_empty_left (l0 m) h, List.foldl_map]

theorem load_each_refines_spec_witness :
    (keys ((fun _ => [("a", Val.vInt 1)] : Loader) (Metadata.mk "svc"))).Nodup ∧
    load_each [(fun _ => [("a", Val.vInt 1)] : Loader), fun _ => [("b", Val.vInt 2)]]
        (Metadata.mk "svc")
      = Except.ok (load_each_spec
          [(fun _ => [("a", Val.vInt 1)] : Loader), fun _ => [("b", Val.vInt 2)]]
          (Metadata.mk "svc")) :=
  ⟨by simp [keys], load_each_refines_spec _ _ _ (by simp [keys])⟩

/-- C2: an environment variable matches iff its name split on `_` is
strictly longer than the prefix (the metadata name uppercased, `-`
replaced by `_`, split on `_`) and starts with the prefix element-wise;
a non-matching variable contributes nothing to the decoded
configuration, and in particular `FOO=1` with metadata name `foo` is
excluded. -/
theorem matches_key_characterization :
    (∀ name key : String,
      matchesVar name key = true ↔
        ((keyParts key).length > (nameParts name).length ∧
          (keyParts key).take (nameParts name).length = nameParts name)) ∧
    (∀ (name : String) (env : List (String × String)) (key value : String),
      matchesVar name key = false →
        load_from_environ name (env ++ [(key, value)]) = load_from_environ name env) ∧
    matchesVar "foo" "FOO" = false ∧
    load_from_environ "foo" [("FOO", "1")] = Config.empty := by
  refine ⟨?_, ?_, rfl, rfl⟩
  · intro name key
    simp [matchesVar, matches_key]
  · intro name env key value h
    rw [load_from_environ_append]
    exact environStep_not_matches _ _ _ _ (by simpa [matchesVar] using h)

theorem matches_key_characterization_witness :
    matchesVar "foo" "foo_bar" = false ∧
    load_from_environ "foo" ([("OTHER", "x")] ++ [("foo_bar", "1")])
      = load_from_environ "foo" [("OTHER", "x")] :=
  ⟨by rfl, matches_key_characterization.2.1 "foo" [("OTHER", "x")] "foo_bar" "1" (by rfl)⟩

/-- C3: for metadata name `foo-bar` and the single matching environment
variable `FOO_BAR_BAZ_QUX=1`, the decoder returns the nested
configuration `{baz: {qux: 1}}`, with the value decoded as the integer
`1` and not the string `"1"`. -/
theorem environ_decodes_nested_example :
    load_from_environ "foo-bar" [("FOO_BAR_BAZ_QUX", "1")]
      = [("baz", Val.cfg [("qux", Val.vInt 1)])] ∧
    decodeValue "1" = Val.vInt 1 ∧
    decodeValue "1" ≠ Val.vStr "1" := by
  refine ⟨rfl, rfl, ?_⟩
  intro h
  rw [show decodeValue "1" = Val.vInt 1 from rfl] at h
  exact Val.noConfusion h

/-- C4: merging `b` into `a` is a recursive deep merge, characterised
per key: a key absent from `b` keeps `a`'s value, a key bound in `b`
ends up with `b`'s value unless both sides hold nested configurations,
which are merged recursively; merge is right-biased on scalar conflicts
and unions nested mappings. -/
theorem merge_deep_merge :
    (∀ b : Config, (keys b).Nodup → ∀ (a : Config) (k : String),
      lookup (merge a b) k =
        match lookup b k with
        | none => lookup a k
        | some v =>
            match lookup a k, v with
            | some (Val.cfg na), Val.cfg nb => some (Val.cfg (merge na nb))
            | _, _ => some v) ∧
    merge [("a", Val.vInt 1)] [("a", Val.vInt 2)] = [("a", Val.vInt 2)] ∧
    merge [("a", Val.cfg [("b", Val.vInt 1)])] [("a", Val.cfg [("c", Val.vInt 2)])]
      = [("a", Val.cfg [("b", Val.vInt 1), ("c", Val.vInt 2)])] := by
  refine ⟨?_, rfl, rfl⟩
  intro b hnd a k
  exact lookup_merge b a hnd k

theorem merge_deep_merge_witness :
    (keys [("x", Val.vInt 5)]).Nodup ∧
    lookup (merge [("x", Val.vInt 4)] [("x", Val.vInt 5)]) "x" =
      match lookup [("x", Val.vInt 5)] "x" with
      | none => lookup [("x", Val.vInt 4)] "x"
      | some v =>
          match lookup [("x", Val.vInt 4)] "x", v with
          | some (Val.cfg na), Val.cfg nb => some (Val.cfg (merge na nb))
          | _, _ => some v :=
  ⟨by simp [keys], merge_deep_merge.1 [("x", Val.vInt 5)] (by simp [keys])
    [("x", Val.vInt 4)] "x"⟩

/-- C5: for every matching environment variable whose residual key has
intermediate parts, the first intermediate (lower-cased) key of the
variable processed last is bound to a configuration built entirely from
scratch — a brand-new empty nested `Configuration` filled only with that
variable's own path — independent of whatever any earlier variable had
built at that key, so later variables reset intermediate nodes along
the paths they recreate. -/
theorem environ_resets_intermediate_nodes
    (name : String) (env : List (String × String)) (key value : String)
    (p : String) (ps : List String)
    (hm : matchesVar name key = true)
    (hmid : ((keyParts key).drop (nameParts name).length).dropLast.map strLower
      = p :: ps) :
    lookup (load_from_environ name (env ++ [(key, value)])) p =
      some (Val.cfg (setPath [] ps
        (strLower (((keyParts key).drop (nameParts name).length).getLastD ""))
        (decodeValue value))) := by
  rw [load_from_environ_append]
  rw [environStep_matches _ _ _ _ (by simpa [matchesVar] using hm)]
  rw [hmid]
  simp only [setPath]
  exact lookup_setKey_self _ _ _

theorem environ_resets_intermediate_nodes_witness :
    matchesVar "foo" "FOO_A_C" = true ∧
    ((keyParts "FOO_A_C").drop (nameParts "foo").length).dropLast.map strLower
      = "a" :: [] ∧
    lookup (load_from_environ "foo" ([("FOO_A_B", "1")] ++ [("FOO_A_C", "2")])) "a" =
      some (Val.cfg (setPath [] []
        (strLower (((keyParts "FOO_A_C").drop (nameParts "foo").length).getLastD ""))
        (decodeValue "2"))) :=
  ⟨by rfl, by rfl,
    environ_resets_intermediate_nodes "foo" [("FOO_A_B", "1")] "FOO_A_C" "2" "a" []
      (by rfl) (by rfl)⟩

/-- C6: the environment decoder never errors: a matching variable whose
value fails JSON-literal decoding is stored unchanged as the raw string
at its (lower-cased) nested path. -/
theorem environ_decode_fallback_raw_string
    (name : String) (env : List (String × String)) (key value : String)
    (hm : matchesVar name key = true)
    (hd : jsonDecode value = none) :
    lookupPath (load_from_environ name (env ++ [(key, value)]))
      (((keyParts key).drop (nameParts name).length).map strLower)
      = some (Val.vStr value) := by
  rw [load_from_environ_append]
  rw [environStep_matches _ _ _ _ (by simpa [matchesVar] using hm)]
  have hrest : (keyParts key).drop (nameParts name).length ≠ [] :=
    rest_ne_nil_of_matches _ _ (by simpa [matchesVar] using hm)
  rw [← mapLower_decomp _ "" hrest]
  have hdec : decodeValue value = Val.vStr value := by
    simp [decodeValue, hd]
  rw [hdec]
  exact lookupPath_setPath _ _ _ _

theorem environ_decode_fallback_raw_string_witness :
    matchesVar "foo" "FOO_BAR" = true ∧
    jsonDecode "not json!" = none ∧
    lookupPath (load_from_environ "foo" ([] ++ [("FOO_BAR", "not json!")]))
      (((keyParts "FOO_BAR").drop (nameParts "foo").length).map strLower)
      = some (Val.vStr "not json!") :=
  ⟨by rfl, by rfl,
    environ_decode_fallback_raw_string "foo" [] "FOO_BAR" "not json!" (by rfl) (by rfl)⟩

/-- C7: when the derived settings environment variable is unset, every
file-based loader returns an empty `Configuration` and raises no
error. -/
theorem file_loader_unset_returns_empty
    (fs : FileSystem) (metadata : Metadata) (env : List (String × String))
    (load_func : ParseFunc)
    (h : envGet env (settingsEnvVar metadata.name) = none) :
    load_from_file fs metadata env load_func = Except.ok Config.empty := by
  simp only [load_from_file, get_config_filename, h]

theorem file_loader_unset_returns_empty_witness :
    envGet [] (settingsEnvVar (Metadata.mk "foo").name) = none ∧
    load_from_file (fun _ => none : FileSystem) (Metadata.mk "foo") []
      (fun _ => Except.ok [] : ParseFunc) = Except.ok Config.empty :=
  ⟨by rfl,
    file_loader_unset_returns_empty (fun _ => none) (Metadata.mk "foo") []
      (fun _ => Except.ok []) (by rfl)⟩

/-- C8: when the settings environment variable is set but the path is
unreadable, the file-based loader fails with a file-access error that
propagates to the caller; a parse failure from the supplied parse
function likewise propagates as a parse error. -/
theorem file_loader_errors_propagate :
    (∀ (fs : FileSystem) (metadata : Metadata) (env : List (String × String))
        (load_func : ParseFunc) (path : String),
      get_config_filename metadata env = some path →
      fs path = none →
      load_from_file fs metadata env load_func
        = Except.error (LoadError.fileAccessError path)) ∧
    (∀ (fs : FileSystem) (metadata : Metadata) (env : List (String × String))
        (load_func : ParseFunc) (path text msg : String),
      get_config_filename metadata env = some path →
      fs path = some text →
      load_func text = Except.error msg →
      load_from_file fs metadata env load_func
        = Except.error (LoadError.parseError msg)) := by
  constructor
  · intro fs metadata env load_func path h1 h2
    simp only [load_from_file, h1, h2]
  · intro fs metadata env load_func path text msg h1 h2 h3
    simp only [load_from_file, h1, h2, h3]

theorem file_loader_errors_propagate_witness :
    (get_config_filename (Metadata.mk "foo") [("FOO_SETTINGS", "/etc/app.json")]
        = some "/etc/app.json" ∧
      load_from_file (fun _ => none : FileSystem) (Metadata.mk "foo")
        [("FOO_SETTINGS", "/etc/app.json")] (fun _ => Except.ok [] : ParseFunc)
        = Except.error (LoadError.fileAccessError "/etc/app.json")) ∧
    (load_from_file (fun _ => some "oops" : FileSystem) (Metadata.mk "foo")
      [("FOO_SETTINGS", "/etc/app.json")] (fun _ => Except.error "bad" : ParseFunc)
      = Except.error (LoadError.parseError "bad")) :=
  ⟨⟨by rfl,
      file_loader_errors_propagate.1 (fun _ => none) (Metadata.mk "foo")
        [("FOO_SETTINGS", "/etc/app.json")] (fun _ => Except.ok [])
        "/etc/app.json" (by rfl) (by rfl)⟩,
    file_loader_errors_propagate.2 (fun _ => some "oops") (Metadata.mk "foo")
      [("FOO_SETTINGS", "/etc/app.json")] (fun _ => Except.error "bad")
      "/etc/app.json" "oops" "bad" (by rfl) (by rfl) (by rfl)⟩

/-- C9: the file-based loaders consult the environment variable
`{NAME}_SETTINGS` where `{NAME}` is derived by
`inflection.underscore(name).upper()`; for names with no upper-case
letters this agrees with the spec's simpler rule — the name uppercased
with `-` converted to `_` — while the two rules disagree for names
containing upper-case letters, since `underscore` inserts underscores at
camel-case boundaries (e.g. name `fooBar`). -/
theorem settings_envvar_derivation :
    (∀ name : String, (∀ c ∈ name.toList, isUpperAZ c = false) →
      settingsEnvVar name
        = String.mk (replaceDash (upperChars name.toList)) ++ "_SETTINGS") ∧
    settingsEnvVar "fooBar" = "FOO_BAR_SETTINGS" ∧
    String.mk (replaceDash (upperChars ("fooBar" : String).toList)) ++ "_SETTINGS"
      ≠ settingsEnvVar "fooBar" := by
  refine ⟨?_, rfl, by decide⟩
  intro name h
  simp only [settingsEnvVar, underscore, camelPass1_id _ h, camelPass2_id _ h]
  rw [upper_lower_replaceDash name.toList h]

theorem settings_envvar_derivation_witness :
    (∀ c ∈ ("foo-bar" : String).toList, isUpperAZ c = false) ∧
    settingsEnvVar "foo-bar"
      = String.mk (replaceDash (upperChars ("foo-bar" : String).toList)) ++ "_SETTINGS" :=
  ⟨by decide, settings_envvar_derivation.1 "foo-bar" (by decide)⟩

/-- C10: the loader returned by `load_each` applied to an empty sequence
of loaders raises an index error for every metadata (it unconditionally
invokes the first loader); it does not return an empty `Configuration`,
nor any other successful result. -/
theorem load_each_empty_raises (m : Metadata) :
    load_each [] m = Except.error LoadError.indexError ∧
    ∀ c : Config, load_each [] m ≠ Except.ok c := by
  refine ⟨rfl, ?_⟩
  intro c h
  exact Except.noConfusion h

end Microcosm
